import Mathlib

/-!
Shallow embedding of the audio-to-schema extraction pipeline (`src/main.py`)
and proofs about it.

The pipeline's core functions are modelled as executable Lean functions:
Python strings are modelled as `String` / `List Char`, Python string
operations (`split`, `replace`, `strip`, `in`, `lower`) are given faithful
char-level implementations, `json.loads` is modelled as a recursive-descent
JSON parser, exceptions are modelled as `Option`/`Except`/sum results, and
wall-clock readings (`time.perf_counter`) are supplied by the environment.
-/

/-! ## Python string primitives -/

/-- Whitespace set of Python's `str.strip()` (ASCII part). -/
def pyIsSpace (c : Char) : Bool :=
  c = ' ' || c = '\t' || c = '\n' || c = '\r' || c = '\x0b' || c = '\x0c'

/-- Python `str.strip()` on a character list: drop whitespace from both ends. -/
def pyStrip (cs : List Char) : List Char :=
  ((cs.dropWhile pyIsSpace).reverse.dropWhile pyIsSpace).reverse

/-- Python `str.strip()` on a `String`. -/
def pyStripStr (s : String) : String :=
  ⟨pyStrip s.toList⟩

/-- Python `str.lower()` (ASCII case folding, as used on error messages). -/
def pyLower (cs : List Char) : List Char :=
  cs.map Char.toLower

/-- Locate the first occurrence of `sep` in `cs`; return the part before it
and the part after it (the basis of Python's `str.split`). -/
def splitFirst (sep : List Char) : List Char → Option (List Char × List Char)
  | [] => none
  | c :: rest =>
    if sep.isPrefixOf (c :: rest) then some ([], (c :: rest).drop sep.length)
    else (splitFirst sep rest).map (fun p => (c :: p.1, p.2))

/-- Python's substring test `sep in cs` (for non-empty `sep`). -/
def pyIn (sep cs : List Char) : Bool :=
  (splitFirst sep cs).isSome

/-- Recursion core of Python `str.split(sep)`: cut at every occurrence of
`sep`, scanning left to right.  The fuel only serves termination; one unit
per cut always suffices (each cut strictly shortens the input). -/
def listSplitGo (sep : List Char) : Nat → List Char → List (List Char)
  | 0, cs => [cs]
  | fuel + 1, cs =>
    match splitFirst sep cs with
    | none => [cs]
    | some (a, b) => a :: listSplitGo sep fuel b

/-- Python `str.split(sep)` (for non-empty `sep`). -/
def listSplit (sep cs : List Char) : List (List Char) :=
  listSplitGo sep (cs.length + 1) cs

/-- Recursion core of Python `str.replace(sep, repl)`. -/
def listReplaceGo (sep repl : List Char) : Nat → List Char → List Char
  | 0, cs => cs
  | fuel + 1, cs =>
    match splitFirst sep cs with
    | none => cs
    | some (a, b) => a ++ repl ++ listReplaceGo sep repl fuel b

/-- Python `str.replace(sep, repl)` (for non-empty `sep`). -/
def listReplace (sep repl cs : List Char) : List Char :=
  listReplaceGo sep repl (cs.length + 1) cs

/-! ## JSON values and `json.loads` -/

/-- JSON values as produced by Python's `json.loads`.  Integer literals
become Python ints (`intNum`); literals with a fraction or exponent become
floats, represented exactly as `m * 10 ^ e` (`floatNum m e`); `NaN` and
`±Infinity` (accepted by `json.loads`) get their own constructors. -/
inductive Json where
  | null
  | bool (b : Bool)
  | intNum (n : Int)
  | floatNum (m : Int) (e : Int)
  | str (s : String)
  | arr (elems : List Json)
  | obj (members : List (String × Json))
  | nan
  | inf (neg : Bool)

/-- Python dict lookup on an association list. -/
def dictGet (kvs : List (String × Json)) (key : String) : Option Json :=
  (kvs.find? (fun p => p.1 == key)).map (fun p => p.2)

/-- Python dict assignment `d[key] = v`: replace the value at an existing
key in place, otherwise append the new binding at the end. -/
def dictInsert (kvs : List (String × Json)) (key : String) (v : Json) :
    List (String × Json) :=
  if kvs.any (fun p => p.1 == key) then
    kvs.map (fun p => if p.1 == key then (key, v) else p)
  else kvs ++ [(key, v)]

/-- JSON whitespace, as skipped by Python's `json` scanner. -/
def jsonIsSpace (c : Char) : Bool :=
  c = ' ' || c = '\t' || c = '\n' || c = '\r'

/-- Skip JSON whitespace. -/
def skipWs (cs : List Char) : List Char :=
  cs.dropWhile jsonIsSpace

/-- Hex digit value, for `\uXXXX` string escapes. -/
def hexVal (c : Char) : Option Nat :=
  if '0' ≤ c ∧ c ≤ '9' then some (c.toNat - '0'.toNat)
  else if 'a' ≤ c ∧ c ≤ 'f' then some (c.toNat - 'a'.toNat + 10)
  else if 'A' ≤ c ∧ c ≤ 'F' then some (c.toNat - 'A'.toNat + 10)
  else none

/-- Decimal digit test. -/
def isDigit (c : Char) : Bool :=
  '0' ≤ c && c ≤ '9'

/-- Parse the body of a JSON string literal (the opening quote has been
consumed); returns the decoded characters and the input after the closing
quote.  Raw control characters are rejected (`json.loads` strict mode). -/
def parseStringBody : Nat → List Char → Option (List Char × List Char)
  | 0, _ => none
  | _ + 1, [] => none
  | fuel + 1, c :: rest =>
    if c = '"' then some ([], rest)
    else if c = '\\' then
      match rest with
      | '"' :: r => (parseStringBody fuel r).map (fun p => ('"' :: p.1, p.2))
      | '\\' :: r => (parseStringBody fuel r).map (fun p => ('\\' :: p.1, p.2))
      | '/' :: r => (parseStringBody fuel r).map (fun p => ('/' :: p.1, p.2))
      | 'b' :: r => (parseStringBody fuel r).map (fun p => ('\x08' :: p.1, p.2))
      | 'f' :: r => (parseStringBody fuel r).map (fun p => ('\x0c' :: p.1, p.2))
      | 'n' :: r => (parseStringBody fuel r).map (fun p => ('\n' :: p.1, p.2))
      | 'r' :: r => (parseStringBody fuel r).map (fun p => ('\r' :: p.1, p.2))
      | 't' :: r => (parseStringBody fuel r).map (fun p => ('\t' :: p.1, p.2))
      | 'u' :: h1 :: h2 :: h3 :: h4 :: r =>
        match hexVal h1, hexVal h2, hexVal h3, hexVal h4 with
        | some v1, some v2, some v3, some v4 =>
          let v := ((v1 * 16 + v2) * 16 + v3) * 16 + v4
          (parseStringBody fuel r).map (fun p => (Char.ofNat v :: p.1, p.2))
        | _, _, _, _ => none
      | _ => none
    else if c.toNat < 32 then none
    else (parseStringBody fuel rest).map (fun p => (c :: p.1, p.2))

/-- Parse a run of decimal digits into a value accumulator, also counting
the digits consumed. -/
def parseDigits : List Char → Int → Nat → Int × Nat × List Char
  | [], acc, n => (acc, n, [])
  | c :: rest, acc, n =>
    if isDigit c then parseDigits rest (acc * 10 + (c.toNat - '0'.toNat : Nat)) (n + 1)
    else (acc, n, c :: rest)

/-- Parse the integer part of a JSON number: `0`, or a digit run not
starting with `0`. -/
def parseIntPart : List Char → Option (Int × List Char)
  | [] => none
  | c :: rest =>
    if c = '0' then some (0, rest)
    else if isDigit c then
      let (v, _, r) := parseDigits rest (c.toNat - '0'.toNat : Nat) 0
      some (v, r)
    else none

/-- Parse a JSON number (the grammar of Python's `json` `NUMBER_RE`):
optional minus, integer part (`0` or a nonzero-led digit run), optional
fraction, optional exponent.  Integer literals yield `intNum`; a fraction
or exponent yields `floatNum m e` with value `m * 10 ^ e`. -/
def parseNumber (cs : List Char) : Option (Json × List Char) :=
  let (neg, cs₁) :=
    match cs with
    | '-' :: r => (true, r)
    | _ => (false, cs)
  (parseIntPart cs₁).bind fun (intPart, afterInt) =>
    let (mFrac, fracLen, afterFrac) :=
      match afterInt with
      | '.' :: d :: r =>
        if isDigit d then
          let (v, n, r') := parseDigits r (intPart * 10 + (d.toNat - '0'.toNat : Nat)) 0
          (v, n + 1, r')
        else (intPart, 0, afterInt)
      | _ => (intPart, 0, afterInt)
    let (expVal, hasExp, afterExp) :=
      match afterFrac with
      | e :: r =>
        if e = 'e' ∨ e = 'E' then
          match r with
          | '+' :: d :: r' =>
            if isDigit d then
              let (v, _, r'') := parseDigits r' (d.toNat - '0'.toNat : Nat) 0
              ((v : Int), true, r'')
            else (0, false, afterFrac)
          | '-' :: d :: r' =>
            if isDigit d then
              let (v, _, r'') := parseDigits r' (d.toNat - '0'.toNat : Nat) 0
              (-(v : Int), true, r'')
            else (0, false, afterFrac)
          | d :: r' =>
            if isDigit d then
              let (v, _, r'') := parseDigits r' (d.toNat - '0'.toNat : Nat) 0
              ((v : Int), true, r'')
            else (0, false, afterFrac)
          | [] => (0, false, afterFrac)
        else (0, false, afterFrac)
      | [] => (0, false, afterFrac)
    let sign : Int := if neg then -1 else 1
    if fracLen = 0 ∧ hasExp = false then
      some (Json.intNum (sign * intPart), afterExp)
    else
      some (Json.floatNum (sign * mFrac) (expVal - (fracLen : Int)), afterExp)

/-- Opening brace character (code 123). -/
def lbrace : Char := Char.ofNat 123

/-- Closing brace character (code 125). -/
def rbrace : Char := Char.ofNat 125

mutual

/-- Parse one JSON value (after skipping leading whitespace); returns the
value and the remaining input. -/
def parseValue : Nat → List Char → Option (Json × List Char)
  | 0, _ => none
  | fuel + 1, cs =>
    match skipWs cs with
    | [] => none
    | c :: rest =>
      if c = 'n' then
        match rest with
        | 'u' :: 'l' :: 'l' :: r => some (Json.null, r)
        | _ => none
      else if c = 't' then
        match rest with
        | 'r' :: 'u' :: 'e' :: r => some (Json.bool true, r)
        | _ => none
      else if c = 'f' then
        match rest with
        | 'a' :: 'l' :: 's' :: 'e' :: r => some (Json.bool false, r)
        | _ => none
      else if c = 'N' then
        match rest with
        | 'a' :: 'N' :: r => some (Json.nan, r)
        | _ => none
      else if c = 'I' then
        match rest with
        | 'n' :: 'f' :: 'i' :: 'n' :: 'i' :: 't' :: 'y' :: r => some (Json.inf false, r)
        | _ => none
      else if c = '-' ∧ rest.take 8 = ['I', 'n', 'f', 'i', 'n', 'i', 't', 'y'] then
        some (Json.inf true, rest.drop 8)
      else if c = '"' then
        (parseStringBody (rest.length + 1) rest).map (fun p => (Json.str ⟨p.1⟩, p.2))
      else if c = '[' then
        let r := skipWs rest
        match r with
        | ']' :: r' => some (Json.arr [], r')
        | _ => parseItems fuel r []
      else if c = lbrace then
        let r := skipWs rest
        match r with
        | r0 :: r' =>
          if r0 = rbrace then some (Json.obj [], r')
          else parseMembers fuel r []
        | [] => none
      else if c = '-' ∨ isDigit c then parseNumber (c :: rest)
      else none

/-- Parse the elements of a non-empty JSON array, positioned at the start
of a value; `acc` holds the elements parsed so far, reversed. -/
def parseItems : Nat → List Char → List Json → Option (Json × List Char)
  | 0, _, _ => none
  | fuel + 1, cs, acc =>
    match parseValue fuel cs with
    | none => none
    | some (v, rest) =>
      match skipWs rest with
      | ',' :: r => parseItems fuel (skipWs r) (v :: acc)
      | ']' :: r => some (Json.arr (v :: acc).reverse, r)
      | _ => none

/-- Parse the members of a non-empty JSON object, positioned at the start
of a key; `acc` holds the pairs parsed so far, reversed.  The final object
is built by repeated dict assignment, so a repeated key keeps its first
position but its last value, as in Python. -/
def parseMembers : Nat → List Char → List (String × Json) →
    Option (Json × List Char)
  | 0, _, _ => none
  | fuel + 1, cs, acc =>
    match cs with
    | '"' :: rest =>
      match parseStringBody (rest.length + 1) rest with
      | none => none
      | some (key, afterKey) =>
        match skipWs afterKey with
        | ':' :: afterColon =>
          match parseValue fuel afterColon with
          | none => none
          | some (v, rest') =>
            match skipWs rest' with
            | ',' :: r =>
              match skipWs r with
              | r0 :: rs => parseMembers fuel (r0 :: rs) ((⟨key⟩, v) :: acc)
              | [] => none
            | r0 :: r =>
              if r0 = rbrace then
                some (Json.obj ((((⟨key⟩ : String), v) :: acc).reverse.foldl
                  (fun d p => dictInsert d p.1 p.2) []), r)
              else none
            | [] => none
        | _ => none
    | _ => none

end

/-- Python `json.loads` on a character list: parse one JSON document and
require that only whitespace follows it. -/
def json_loads_chars (cs : List Char) : Option Json :=
  match parseValue (2 * cs.length + 2) cs with
  | none => none
  | some (v, rest) => if skipWs rest = [] then some v else none

/-- Python `json.loads` on a `String`. -/
def json_loads (s : String) : Option Json :=
  json_loads_chars s.toList

/-! ## Response parsing (`extract_text_from_response`, `extract_json_from_text`) -/

/-- The fence marker, `"```"` as characters. -/
def fence : List Char := "```".toList

/-- The json-fenced-block opener, `"```json"` as characters. -/
def fenceJson : List Char := "```json".toList

/-- One content part of a response candidate (named `ContentPart` here since
`Part` exists in Mathlib); `text = none` models a part object without a
`text` attribute (the `hasattr` check in the source). -/
structure ContentPart where
  text : Option String
deriving DecidableEq

/-- The `content` of a candidate: a list of parts. -/
structure Content where
  parts : List ContentPart
deriving DecidableEq

/-- One candidate completion. -/
structure Candidate where
  content : Content
deriving DecidableEq

/-- Token-usage counters; `none` models the service reporting `None`
(the source applies `or 0` to each). -/
structure UsageMetadata where
  prompt_token_count : Option Nat
  candidates_token_count : Option Nat
deriving DecidableEq

/-- An inference response: candidates plus usage counters. -/
structure Response where
  candidates : List Candidate
  usage_metadata : UsageMetadata
deriving DecidableEq

/-- `extract_text_from_response` (src/main.py lines 56-71): concatenate the
`text` of every part of every candidate, in order, skipping parts without
text, then strip surrounding whitespace.  (The returned elapsed time is a
wall-clock reading and is not modelled.) -/
def extract_text_from_response (r : Response) : String :=
  pyStripStr (r.candidates.foldl
    (fun text c => c.content.parts.foldl
      (fun text p =>
        match p.text with
        | some t => text ++ t
        | none => text)
      text)
    "")

/-- `extract_json_from_text` (src/main.py lines 74-86): if the text contains
"```json", keep only what lies between the first "```json" and the next
"```"; then remove all remaining "```" markers, strip whitespace, and parse
the result as JSON.  `none` models the `json.JSONDecodeError` raised by
`json.loads`. -/
def extract_json_from_text (text : String) : Option Json :=
  let cs := text.toList
  let cs :=
    if pyIn fenceJson cs then
      (listSplit fence ((listSplit fenceJson cs).getD 1 [])).headD []
    else cs
  let cs := pyStrip (listReplace fence [] cs)
  json_loads_chars cs

/-! ## Backoff retrier (`generate_with_retry`) -/

/-- The transient-error classification of `generate_with_retry`
(src/main.py line 46): the error's string form contains `"503"`, or its
lowercase form contains `"overloaded"`. -/
def isTransient (e : String) : Bool :=
  pyIn "503".toList e.toList || pyIn "overloaded".toList (pyLower e.toList)

/-- Terminal outcome of one run of the retry loop. -/
inductive RetryOutcome (R : Type) where
  | ok (r : R)
  | raised (e : String)
  | exhausted
deriving DecidableEq

/-- Observable behaviour of one run of the retry loop: its outcome, how
many inference attempts were started, and the sleep delays taken (in
seconds, in order). -/
structure RetryRun (R : Type) where
  outcome : RetryOutcome R
  attemptsMade : Nat
  delays : List ℚ
deriving DecidableEq

/-- Recursion core of `generate_with_retry` (src/main.py lines 36-53):
`remaining` attempts left, `k` the index of the next attempt, `acc` the
delays slept so far (reversed).  `attempt k` gives the outcome of the k-th
`generate_content` call (`Except.error e` models an exception with string
form `e`); `jitter k` is the value drawn from `random.uniform(0, 1)` before
the k-th retry sleep. -/
def retryGo {R : Type} (attempt : Nat → Except String R) (jitter : Nat → ℚ) :
    Nat → Nat → List ℚ → RetryRun R
  | 0, k, acc => ⟨.exhausted, k, acc.reverse⟩
  | remaining + 1, k, acc =>
    match attempt k with
    | .ok r => ⟨.ok r, k + 1, acc.reverse⟩
    | .error e =>
      if isTransient e then
        retryGo attempt jitter remaining (k + 1) (((2 : ℚ) ^ k + jitter k) :: acc)
      else ⟨.raised e, k + 1, acc.reverse⟩

/-- `generate_with_retry` (src/main.py lines 33-53): run the attempt loop
with `max_retries` attempts; `.exhausted` models the final
`RuntimeError("Max retries exceeded")`, `.raised e` the re-raised
non-transient exception. -/
def generate_with_retry {R : Type} (attempt : Nat → Except String R)
    (jitter : Nat → ℚ) (max_retries : Nat) : RetryRun R :=
  retryGo attempt jitter max_retries 0 []

/-! ## File activation waiter (`wait_for_file_active`) -/

/-- Recursion core of `wait_for_file_active` (src/main.py lines 16-30):
`states j` is the state name the j-th poll observes; successive loop
iterations are separated by the 2-second sleep, so the j-th poll happens at
elapsed time `2 * j`.  Returns `some j` when the j-th poll sees `"ACTIVE"`,
`none` when the deadline elapses first (the `TimeoutError`). -/
def waitGo (states : Nat → String) (timeout : Nat) (k : Nat) : Option Nat :=
  if 2 * k < timeout then
    if states k = "ACTIVE" then some k
    else waitGo states timeout (k + 1)
  else none
termination_by timeout - 2 * k
decreasing_by omega

/-- `wait_for_file_active` with its polling loop started at elapsed time 0. -/
def wait_for_file_active (states : Nat → String) (timeout : Nat) : Option Nat :=
  waitGo states timeout 0

/-! ## Metrics and cost -/

/-- Round-half-to-even on rationals, the rounding mode of Python's
built-in `round`. -/
def roundHalfEven (q : ℚ) : Int :=
  let n := ⌊q⌋
  let f := q - n
  if f < 1 / 2 then n
  else if 1 / 2 < f then n + 1
  else if Even n then n else n + 1

/-- Python `round(q, nd)` as a scaled integer: the rounded value is
`roundScaled nd q * 10 ^ (-nd)`. -/
def roundScaled (nd : Nat) (q : ℚ) : Int :=
  roundHalfEven (q * 10 ^ nd)

/-- The exact cost formula of src/main.py line 138:
`(input_tokens * 0.30 + output_tokens * 2.50) / 1_000_000`. -/
def total_cost (input_tokens output_tokens : Nat) : ℚ :=
  (input_tokens * (3 / 10) + output_tokens * (5 / 2)) / 1000000

/-- The value stored under `estimated_cost_usd`: the cost rounded to six
decimal places (src/main.py line 144). -/
def estimated_cost_usd (input_tokens output_tokens : Nat) : ℚ :=
  (roundScaled 6 (total_cost input_tokens output_tokens) : ℚ) / 10 ^ 6

/-! ## Extraction orchestrator (`extract_schema_from_audio`) -/

/-- The environment one extraction runs against: the file state observed at
each poll, the outcome of each inference attempt, the jitter drawn before
each retry sleep, and the wall-clock durations of the stages whose timing
is not derived in the model. -/
structure Env where
  states : Nat → String
  attempt : Nat → Except String Response
  jitter : Nat → ℚ
  upload_time : ℚ
  inference_time : ℚ
  text_time : ℚ
  json_time : ℚ
  total_time : ℚ

/-- Errors that can escape `extract_schema_from_audio`. -/
inductive PipelineError where
  | timeout
  | raised (e : String)
  | retriesExhausted
  | jsonDecodeError
  | typeError
deriving DecidableEq

/-- Result of one orchestrator run: the returned schema or the escaping
error, together with the number of inference attempts started. -/
structure OrchResult where
  result : Except PipelineError Json
  inferenceAttempts : Nat

/-- The `metrics` mapping injected by the orchestrator (src/main.py lines
141-153), for the successful response `resp` and activation poll count `k`
(file processing took `2 * k` seconds).  Stage durations are rounded to two
decimals and the cost to six. -/
def metricsOf (env : Env) (k : Nat) (resp : Response) : Json :=
  let input_tokens := resp.usage_metadata.prompt_token_count.getD 0
  let output_tokens := resp.usage_metadata.candidates_token_count.getD 0
  .obj [("input_tokens", .intNum input_tokens),
        ("output_tokens", .intNum output_tokens),
        ("estimated_cost_usd", .floatNum (roundScaled 6 (total_cost input_tokens output_tokens)) (-6)),
        ("timings_seconds", .obj [
          ("upload", .floatNum (roundScaled 2 env.upload_time) (-2)),
          ("file_processing", .floatNum (roundScaled 2 (2 * k)) (-2)),
          ("inference", .floatNum (roundScaled 2 env.inference_time) (-2)),
          ("text_extraction", .floatNum (roundScaled 2 env.text_time) (-2)),
          ("json_parsing", .floatNum (roundScaled 2 env.json_time) (-2)),
          ("total_execution", .floatNum (roundScaled 2 env.total_time) (-2))])]

/-- The orchestrator stages after file activation succeeded at poll `k`
(src/main.py lines 120-156): inference through the retrier, text
extraction, JSON extraction, metrics injection.  `schema["metrics"] = ...`
on a non-dict parse result raises a `TypeError`. -/
def afterWait (env : Env) (k : Nat) : OrchResult :=
  let run := generate_with_retry env.attempt env.jitter 5
  match run.outcome with
  | .raised e => ⟨.error (.raised e), run.attemptsMade⟩
  | .exhausted => ⟨.error .retriesExhausted, run.attemptsMade⟩
  | .ok resp =>
    match extract_json_from_text (extract_text_from_response resp) with
    | none => ⟨.error .jsonDecodeError, run.attemptsMade⟩
    | some parsed =>
      match parsed with
      | .obj kvs =>
        ⟨.ok (.obj (dictInsert kvs "metrics" (metricsOf env k resp))),
          run.attemptsMade⟩
      | _ => ⟨.error .typeError, run.attemptsMade⟩

/-- `extract_schema_from_audio` (src/main.py lines 90-156): upload (always
succeeds, the uploaded handle is opaque), wait for activation with the
default 180-second timeout, then run the post-activation stages.  On
activation timeout the `TimeoutError` escapes before any inference call. -/
def extract_schema_from_audio (env : Env) : OrchResult :=
  match wait_for_file_active env.states 180 with
  | some k => afterWait env k
  | none => ⟨.error .timeout, 0⟩

/-- The response the orchestrator's parsing stages receive, when one is
produced: defined when activation and the retried inference both succeed. -/
def responseOf (env : Env) : Option Response :=
  match wait_for_file_active env.states 180 with
  | none => none
  | some _ =>
    match (generate_with_retry env.attempt env.jitter 5).outcome with
    | .ok r => some r
    | _ => none

/-- Whether an orchestrator result delivered a schema. -/
def isOkResult (r : Except PipelineError Json) : Bool :=
  match r with
  | .ok _ => true
  | .error _ => false

/-! ## Auxiliary definitions for the statements and witnesses -/

/-- The backtick character (code 96). -/
def backtick : Char := Char.ofNat 96

/-- `sep` occurs as a contiguous substring of `cs`. -/
def Occurs (sep cs : List Char) : Prop :=
  ∃ p q, cs = p ++ sep ++ q

/-- A state sequence whose first poll already reports `ACTIVE`. -/
def activeStates : Nat → String := fun _ => "ACTIVE"

/-- A state sequence stuck in `PROCESSING` forever. -/
def pendingStates : Nat → String := fun _ => "PROCESSING"

/-- An attempt sequence that always fails with a `503` message. -/
def attempt503 : Nat → Except String Unit := fun _ => .error "503"

/-- An attempt sequence that always fails with a non-transient message. -/
def attemptBoom : Nat → Except String Unit := fun _ => .error "boom"

/-- Jitter drawing 0 every time. -/
def zeroJitter : Nat → ℚ := fun _ => 0

/-- A response whose only part carries non-JSON text. -/
def respNotJson : Response :=
  ⟨[⟨⟨[⟨some "not json"⟩]⟩⟩], ⟨some 100, some 50⟩⟩

/-- A response whose text parses to a JSON object inside a fenced block. -/
def respObj : Response :=
  ⟨[⟨⟨[⟨some "```json\n\x7b\"a\": 1\x7d\n```"⟩]⟩⟩], ⟨some 100, some 50⟩⟩

/-- A response whose text parses to a JSON array (not an object). -/
def respArr : Response :=
  ⟨[⟨⟨[⟨some "[1, 2]"⟩]⟩⟩], ⟨some 100, some 50⟩⟩

/-- Environment: instant activation, inference returns `respNotJson`. -/
def envNotJson : Env :=
  ⟨activeStates, fun _ => .ok respNotJson, zeroJitter, 0, 0, 0, 0, 0⟩

/-- Environment: instant activation, inference returns `respObj`. -/
def envObj : Env :=
  ⟨activeStates, fun _ => .ok respObj, zeroJitter, 0, 0, 0, 0, 0⟩

/-- Environment: instant activation, inference returns `respArr`. -/
def envArr : Env :=
  ⟨activeStates, fun _ => .ok respArr, zeroJitter, 0, 0, 0, 0, 0⟩

/-- Environment whose asset never activates. -/
def envPending : Env :=
  ⟨pendingStates, fun _ => .ok respObj, zeroJitter, 0, 0, 0, 0, 0⟩

/-- A valid JSON document containing a fence marker inside a string
literal. -/
def s2bad : String := "[1, \"```\"]"

/-- A text with fence markers but no json-fenced block. -/
def s8bad : String := "[2, \"```\"]"

/-! ## Helper lemmas for the Python string primitives -/

theorem splitFirst_some_length {sep : List Char} (hsep : sep ≠ []) :
    ∀ cs a b, splitFirst sep cs = some (a, b) → b.length < cs.length := by
  intro cs
  induction cs with
  | nil => intro a b h; simp [splitFirst] at h
  | cons c rest ih =>
    intro a b h
    simp only [splitFirst] at h
    split at h
    · have hsl : 1 ≤ sep.length := by
        cases sep with
        | nil => exact absurd rfl hsep
        | cons x xs => simp
      simp only [Option.some.injEq, Prod.mk.injEq] at h
      have hb := h.2
      subst hb
      simp only [List.length_drop, List.length_cons]
      omega
    · cases hsf : splitFirst sep rest with
      | none => rw [hsf] at h; simp at h
      | some p =>
        rw [hsf] at h
        simp only [Option.map_some', Option.some.injEq, Prod.mk.injEq] at h
        have := ih p.1 p.2 (by rw [hsf])
        have hb := h.2
        subst hb
        simp only [List.length_cons]
        omega

theorem listSplitGo_fuel {sep : List Char} (hsep : sep ≠ []) :
    ∀ f₁ f₂ cs, cs.length < f₁ → cs.length < f₂ →
      listSplitGo sep f₁ cs = listSplitGo sep f₂ cs := by
  intro f₁
  induction f₁ with
  | zero => intro f₂ cs h1; omega
  | succ g ih =>
    intro f₂ cs h1 h2
    cases f₂ with
    | zero => omega
    | succ h =>
      simp only [listSplitGo]
      cases hsf : splitFirst sep cs with
      | none => rfl
      | some p =>
        obtain ⟨a, b⟩ := p
        have hlt := splitFirst_some_length hsep cs a b hsf
        show a :: listSplitGo sep g b = a :: listSplitGo sep h b
        exact congrArg _ (ih h b (by omega) (by omega))

theorem listReplaceGo_fuel {sep repl : List Char} (hsep : sep ≠ []) :
    ∀ f₁ f₂ cs, cs.length < f₁ → cs.length < f₂ →
      listReplaceGo sep repl f₁ cs = listReplaceGo sep repl f₂ cs := by
  intro f₁
  induction f₁ with
  | zero => intro f₂ cs h1; omega
  | succ g ih =>
    intro f₂ cs h1 h2
    cases f₂ with
    | zero => omega
    | succ h =>
      simp only [listReplaceGo]
      cases hsf : splitFirst sep cs with
      | none => rfl
      | some p =>
        obtain ⟨a, b⟩ := p
        have hlt := splitFirst_some_length hsep cs a b hsf
        show a ++ repl ++ listReplaceGo sep repl g b =
          a ++ repl ++ listReplaceGo sep repl h b
        rw [ih h b (by omega) (by omega)]

/-- Unfolding `listSplit` when there is no occurrence of `sep`. -/
theorem listSplit_of_none {sep cs : List Char} (h : splitFirst sep cs = none) :
    listSplit sep cs = [cs] := by
  simp [listSplit, listSplitGo, h]

/-- Unfolding `listSplit` at the first occurrence of `sep`. -/
theorem listSplit_of_some {sep cs a b : List Char} (hsep : sep ≠ [])
    (h : splitFirst sep cs = some (a, b)) :
    listSplit sep cs = a :: listSplit sep b := by
  have hlt := splitFirst_some_length hsep cs a b h
  show listSplitGo sep (cs.length + 1) cs = a :: listSplitGo sep (b.length + 1) b
  simp only [listSplitGo, h]
  exact congrArg _ (listSplitGo_fuel hsep cs.length (b.length + 1) b
    (by omega) (by omega))

/-- Unfolding `listReplace` when there is no occurrence of `sep`. -/
theorem listReplace_of_none {sep repl cs : List Char}
    (h : splitFirst sep cs = none) : listReplace sep repl cs = cs := by
  simp [listReplace, listReplaceGo, h]

theorem fence_ne_nil : fence ≠ [] := by decide

theorem fenceJson_ne_nil : fenceJson ≠ [] := by decide

theorem fence_eq : fence = [backtick, backtick, backtick] := by decide

theorem isPrefixOf_append_self :
    ∀ sep r : List Char, sep.isPrefixOf (sep ++ r) = true := by
  intro sep
  induction sep with
  | nil => intro r; simp [List.isPrefixOf]
  | cons a as ih => intro r; simp [List.isPrefixOf, ih r]

theorem isPrefixOf_append_drop :
    ∀ sep cs : List Char, sep.isPrefixOf cs = true → cs = sep ++ cs.drop sep.length := by
  intro sep
  induction sep with
  | nil => intro cs _; simp
  | cons a as ih =>
    intro cs h
    cases cs with
    | nil => simp [List.isPrefixOf] at h
    | cons c rest =>
      simp only [List.isPrefixOf, Bool.and_eq_true, beq_iff_eq] at h
      obtain ⟨hac, hrest⟩ := h
      have := ih rest hrest
      simp only [List.length_cons, List.cons_append, List.drop_succ_cons]
      rw [hac]
      exact congrArg _ this

theorem splitFirst_sep_append {sep : List Char} (hsep : sep ≠ [])
    (rest : List Char) : splitFirst sep (sep ++ rest) = some ([], rest) := by
  cases sep with
  | nil => exact absurd rfl hsep
  | cons a as =>
    show splitFirst (a :: as) (a :: (as ++ rest)) = some ([], rest)
    simp only [splitFirst]
    rw [show (a :: (as ++ rest)) = (a :: as) ++ rest from rfl]
    rw [isPrefixOf_append_self]
    simp [List.drop_left]

theorem splitFirst_eq_append {sep : List Char} :
    ∀ cs a b : List Char, splitFirst sep cs = some (a, b) → cs = a ++ sep ++ b := by
  intro cs
  induction cs with
  | nil => intro a b h; simp [splitFirst] at h
  | cons c rest ih =>
    intro a b h
    simp only [splitFirst] at h
    split at h
    · rename_i hpre
      simp only [Option.some.injEq, Prod.mk.injEq] at h
      obtain ⟨ha, hb⟩ := h
      subst ha
      subst hb
      simpa using isPrefixOf_append_drop sep (c :: rest) hpre
    · cases hsf : splitFirst sep rest with
      | none => rw [hsf] at h; simp at h
      | some p =>
        rw [hsf] at h
        simp only [Option.map_some', Option.some.injEq, Prod.mk.injEq] at h
        obtain ⟨ha, hb⟩ := h
        have := ih p.1 p.2 (by rw [hsf])
        subst ha
        subst hb
        simp only [List.cons_append, List.append_assoc] at this ⊢
        exact congrArg _ this

theorem occurs_of_splitFirst_some {sep cs a b : List Char}
    (h : splitFirst sep cs = some (a, b)) : Occurs sep cs :=
  ⟨a, b, splitFirst_eq_append cs a b h⟩

theorem not_occurs_of_splitFirst_none {sep : List Char} (hsep : sep ≠ []) :
    ∀ cs, splitFirst sep cs = none → ¬ Occurs sep cs := by
  intro cs
  induction cs with
  | nil =>
    intro _ hocc
    obtain ⟨p, q, heq⟩ := hocc
    have := congrArg List.length heq
    simp [List.length_append] at this
    have : sep.length = 0 := by omega
    exact hsep (List.length_eq_zero.mp this)
  | cons c rest ih =>
    intro h hocc
    simp only [splitFirst] at h
    split at h
    · simp at h
    · rename_i hpre
      have hrest : splitFirst sep rest = none := by
        cases hsf : splitFirst sep rest with
        | none => rfl
        | some p => rw [hsf] at h; simp at h
      obtain ⟨p, q, heq⟩ := hocc
      cases p with
      | nil =>
        simp only [List.nil_append] at heq
        rw [heq] at hpre
        rw [isPrefixOf_append_self] at hpre
        simp at hpre
      | cons d p' =>
        simp only [List.cons_append, List.cons.injEq] at heq
        exact ih hrest ⟨p', q, heq.2⟩

theorem splitFirst_eq_none {sep : List Char} (hno : ¬ Occurs sep cs) :
    splitFirst sep cs = none := by
  cases hsf : splitFirst sep cs with
  | none => rfl
  | some p => exact absurd (occurs_of_splitFirst_some (by rw [hsf])) hno

theorem occurs_fence_of_fenceJson {cs : List Char} (h : Occurs fenceJson cs) :
    Occurs fence cs := by
  obtain ⟨p, q, heq⟩ := h
  refine ⟨p, "json".toList ++ q, ?_⟩
  rw [heq]
  rw [show fenceJson = fence ++ "json".toList from rfl]
  simp [List.append_assoc]

theorem occurs_fence_of_fenceJson_append {cs : List Char}
    (h : Occurs fenceJson (cs ++ fence)) : Occurs fence cs := by
  obtain ⟨p, q, heq⟩ := h
  have hle : p.length + 3 ≤ cs.length := by
    have hlen := congrArg List.length heq
    simp only [List.length_append, show fence.length = 3 from rfl,
      show fenceJson.length = 7 from rfl] at hlen
    omega
  have htake : (cs ++ fence).take (p.length + 3) = cs.take (p.length + 3) :=
    List.take_append_of_le_length hle
  have heq' : (cs ++ fence) = (p ++ fence) ++ ("json".toList ++ q) := by
    rw [heq, show fenceJson = fence ++ "json".toList from rfl]
    simp [List.append_assoc]
  have htake' : (cs ++ fence).take (p.length + 3) = p ++ fence := by
    rw [heq']
    rw [show p.length + 3 = (p ++ fence).length by
      simp [List.length_append, show fence.length = 3 from rfl]]
    exact List.take_left (p ++ fence) ("json".toList ++ q)
  have hcs : cs.take (p.length + 3) = p ++ fence := by rw [← htake, htake']
  refine ⟨p, cs.drop (p.length + 3), ?_⟩
  calc cs = cs.take (p.length + 3) ++ cs.drop (p.length + 3) :=
        (List.take_append_drop _ _).symm
    _ = p ++ fence ++ cs.drop (p.length + 3) := by rw [hcs]

theorem occurs_cons {sep : List Char} {c : Char} {cs : List Char}
    (h : Occurs sep cs) : Occurs sep (c :: cs) := by
  obtain ⟨p, q, heq⟩ := h
  exact ⟨c :: p, q, by rw [heq]; rfl⟩

theorem splitFirst_fence_append :
    ∀ s : List Char, ¬ Occurs fence s → s.getLast? ≠ some backtick →
      splitFirst fence (s ++ fence) = some (s, []) := by
  intro s
  induction s with
  | nil =>
    intro _ _
    decide
  | cons c s' ih =>
    intro hno hlast
    have hno' : ¬ Occurs fence s' := fun h => hno (occurs_cons h)
    by_cases hpre : fence.isPrefixOf (c :: (s' ++ fence)) = true
    · exfalso
      rw [fence_eq] at hpre
      cases s' with
      | nil =>
        simp only [List.nil_append, fence_eq, List.isPrefixOf, Bool.and_eq_true,
          beq_iff_eq] at hpre
        have hc : c = backtick := hpre.1.symm
        exact hlast (by rw [hc]; rfl)
      | cons c2 s'' =>
        simp only [List.cons_append, List.isPrefixOf, Bool.and_eq_true,
          beq_iff_eq] at hpre
        obtain ⟨hc, hc2, hrest⟩ := hpre
        cases s'' with
        | nil =>
          simp only [List.nil_append, fence_eq, List.isPrefixOf,
            Bool.and_eq_true, beq_iff_eq] at hrest
          exact hlast (by
            rw [List.getLast?_cons_cons]
            rw [show c2 = backtick from hc2.symm]
            rfl)
        | cons c3 s''' =>
          simp only [List.cons_append, List.isPrefixOf, Bool.and_eq_true,
            beq_iff_eq] at hrest
          obtain ⟨hc3, _⟩ := hrest
          exact hno ⟨[], s''', by
            rw [fence_eq]
            rw [show c = backtick from hc.symm, show c2 = backtick from hc2.symm,
              show c3 = backtick from hc3.symm]
            rfl⟩
    · have hlast' : s'.getLast? ≠ some backtick := by
        cases s' with
        | nil => simp
        | cons x xs =>
          rw [← List.getLast?_cons_cons (a := c)]
          exact hlast
      show splitFirst fence (c :: (s' ++ fence)) = some (c :: s', [])
      simp only [splitFirst]
      rw [if_neg (by simpa using hpre)]
      rw [ih hno' hlast']
      rfl

/-! ## Helper lemmas for the waiter, retrier, dicts and folds -/

theorem waitGo_none {states : Nat → String} {timeout : Nat}
    (h : ∀ j, 2 * j < timeout → states j ≠ "ACTIVE") :
    ∀ n k, timeout - 2 * k ≤ n → waitGo states timeout k = none := by
  intro n
  induction n with
  | zero =>
    intro k hk
    unfold waitGo
    rw [if_neg (by omega)]
  | succ n ih =>
    intro k hk
    unfold waitGo
    by_cases hlt : 2 * k < timeout
    · rw [if_pos hlt, if_neg (h k hlt), ih (k + 1) (by omega)]
    · rw [if_neg hlt]

theorem wait_for_file_active_none {states : Nat → String} {timeout : Nat}
    (h : ∀ j, 2 * j < timeout → states j ≠ "ACTIVE") :
    wait_for_file_active states timeout = none :=
  waitGo_none h timeout 0 (by omega)

theorem wait_first_active {states : Nat → String} (h : states 0 = "ACTIVE") :
    wait_for_file_active states 180 = some 0 := by
  unfold wait_for_file_active waitGo
  simp [h]

theorem orch_of_wait {env : Env} {k : Nat}
    (h : wait_for_file_active env.states 180 = some k) :
    extract_schema_from_audio env = afterWait env k := by
  unfold extract_schema_from_audio
  rw [h]

theorem retryGo_exhausted {R : Type} (attempt : Nat → Except String R)
    (jitter : Nat → ℚ) :
    ∀ (remaining k : Nat) (acc : List ℚ),
      (∀ j, j < remaining →
        ∃ e, attempt (k + j) = Except.error e ∧ isTransient e = true) →
      retryGo attempt jitter remaining k acc =
        ⟨.exhausted, k + remaining,
          acc.reverse ++
            (List.range remaining).map (fun i => (2 : ℚ) ^ (k + i) + jitter (k + i))⟩ := by
  intro remaining
  induction remaining with
  | zero => intro k acc _; simp [retryGo]
  | succ r ih =>
    intro k acc h
    obtain ⟨e, he, ht⟩ := h 0 (by omega)
    rw [show k + 0 = k from rfl] at he
    have h' : ∀ j, j < r →
        ∃ e, attempt (k + 1 + j) = Except.error e ∧ isTransient e = true := by
      intro j hj
      obtain ⟨e', he', ht'⟩ := h (j + 1) (by omega)
      exact ⟨e', by rw [show k + 1 + j = k + (j + 1) by omega]; exact he', ht'⟩
    simp only [retryGo, he, ht, if_true]
    rw [ih (k + 1) (((2 : ℚ) ^ k + jitter k) :: acc) h']
    congr 1
    · omega
    rw [List.reverse_cons, List.range_succ_eq_map, List.map_cons, List.map_map]
    rw [List.append_assoc]
    refine congrArg _ ?_
    rw [show (2 : ℚ) ^ (k + 0) + jitter (k + 0) = (2 : ℚ) ^ k + jitter k from rfl]
    rw [List.singleton_append]
    refine congrArg _ (List.map_congr_left ?_)
    intro i _
    simp only [Function.comp_apply, Nat.succ_eq_add_one]
    rw [show k + 1 + i = k + (i + 1) by omega]

theorem find?_map_insert_self (key : String) (v : Json) :
    ∀ kvs : List (String × Json), kvs.any (fun p => p.1 == key) = true →
      (kvs.map (fun p => if p.1 == key then (key, v) else p)).find?
        (fun p => p.1 == key) = some (key, v) := by
  intro kvs
  induction kvs with
  | nil => intro h; simp at h
  | cons p ps ih =>
    intro h
    by_cases hp : (p.1 == key) = true
    · simp only [List.map_cons]
      rw [if_pos hp, List.find?_cons]
      simp
    · have hpb : (p.1 == key) = false := by
        cases hb : (p.1 == key) with
        | true => exact absurd hb hp
        | false => rfl
      simp only [List.any_cons, Bool.or_eq_true] at h
      have hps : (ps.any fun p => p.1 == key) = true := by
        rcases h with h | h
        · exact absurd h hp
        · exact h
      simp only [List.map_cons]
      rw [if_neg hp, List.find?_cons]
      simp only [hpb]
      exact ih hps

theorem dictGet_insert_self (kvs : List (String × Json)) (key : String)
    (v : Json) : dictGet (dictInsert kvs key v) key = some v := by
  unfold dictInsert
  by_cases hany : kvs.any (fun p => p.1 == key) = true
  · rw [if_pos hany]
    unfold dictGet
    rw [find?_map_insert_self key v kvs hany]
    rfl
  · rw [if_neg hany]
    unfold dictGet
    rw [List.find?_append]
    have hnone : kvs.find? (fun p => p.1 == key) = none := by
      rw [List.find?_eq_none]
      intro x hx hpx
      exact hany (List.any_eq_true.mpr ⟨x, hx, hpx⟩)
    rw [hnone]
    simp [List.find?_cons]

theorem find?_map_insert_ne {key key' : String} (hne : key' ≠ key) (v : Json) :
    ∀ kvs : List (String × Json),
      (kvs.map (fun p => if p.1 == key then (key, v) else p)).find?
        (fun p => p.1 == key') = kvs.find? (fun p => p.1 == key') := by
  intro kvs
  induction kvs with
  | nil => rfl
  | cons p ps ih =>
    by_cases hp : (p.1 == key) = true
    · have hp' : (p.1 == key') = false := by
        rw [beq_iff_eq] at hp
        rw [beq_eq_false_iff_ne, hp]
        exact fun h => hne h.symm
      simp only [List.map_cons, hp, if_true]
      rw [List.find?_cons, List.find?_cons]
      have hkk : (key == key') = false := by
        rw [beq_eq_false_iff_ne]
        exact fun h => hne h.symm
      simp only [hkk, hp']
      exact ih
    · simp only [List.map_cons, hp, if_false, Bool.false_eq_true]
      rw [List.find?_cons, List.find?_cons]
      cases hpk : (p.1 == key') with
      | true => rfl
      | false => exact ih

theorem dictGet_insert_ne {kvs : List (String × Json)} {key key' : String}
    {v : Json} (hne : key' ≠ key) :
    dictGet (dictInsert kvs key v) key' = dictGet kvs key' := by
  unfold dictInsert
  by_cases hany : kvs.any (fun p => p.1 == key) = true
  · rw [if_pos hany]
    unfold dictGet
    rw [find?_map_insert_ne hne v kvs]
  · rw [if_neg hany]
    unfold dictGet
    rw [List.find?_append]
    have hkk : (key == key') = false := by
      rw [beq_eq_false_iff_ne]
      exact fun h => hne h.symm
    have h1 : List.find? (fun p => p.1 == key') [(key, v)] = none := by
      simp [List.find?_cons, hkk]
    rw [h1, Option.or_none]

theorem strFoldr_append_right :
    ∀ (l : List String) (x : String),
      l.foldr (· ++ ·) x = l.foldr (· ++ ·) "" ++ x := by
  intro l
  induction l with
  | nil => intro x; simp
  | cons t ts ih =>
    intro x
    simp only [List.foldr_cons]
    rw [ih x, String.append_assoc]

theorem partsFoldl (parts : List ContentPart) :
    ∀ acc : String,
      parts.foldl
        (fun text p =>
          match p.text with
          | some t => text ++ t
          | none => text)
        acc
      = acc ++ (parts.filterMap (fun p => p.text)).foldr (· ++ ·) "" := by
  induction parts with
  | nil => intro acc; simp
  | cons p ps ih =>
    intro acc
    cases hp : p.text with
    | none => simp [List.foldl_cons, hp, ih, List.filterMap_cons]
    | some t =>
      simp only [List.foldl_cons, hp, ih, List.filterMap_cons, List.foldr_cons]
      rw [String.append_assoc]

theorem candsFoldl (cands : List Candidate) :
    ∀ acc : String,
      cands.foldl
        (fun text c => c.content.parts.foldl
          (fun text p =>
            match p.text with
            | some t => text ++ t
            | none => text)
          text)
        acc
      = acc ++ ((cands.flatMap (fun c => c.content.parts)).filterMap
          (fun p => p.text)).foldr (· ++ ·) "" := by
  induction cands with
  | nil => intro acc; simp
  | cons c cs ih =>
    intro acc
    simp only [List.foldl_cons]
    rw [partsFoldl, ih, List.flatMap_cons, List.filterMap_append,
      List.foldr_append]
    rw [strFoldr_append_right
      (List.filterMap (fun p => p.text) c.content.parts)
      (List.foldr (· ++ ·) ""
        (List.filterMap (fun p => p.text) (cs.flatMap fun c => c.content.parts)))]
    rw [String.append_assoc]

theorem roundHalfEven_intCast (n : ℤ) : roundHalfEven ((n : ℤ) : ℚ) = n := by
  unfold roundHalfEven
  rw [Int.floor_intCast]
  norm_num

/-! ## The claims -/


/-- C2 (amended): for every string `s` that contains no fence marker
(```` ``` ````) and does not end with a backtick, applying JSON extraction
to `s` wrapped in a ```` ```json ```` fenced code block yields the same
result as applying it to `s` unwrapped.  (The original claim, quantified
over all valid-JSON `s`, fails when `s` itself contains fence markers; see
the counterexample.) -/
theorem claim_C2 (s : String) (h1 : splitFirst fence s.toList = none)
    (h2 : s.toList.getLast? ≠ some backtick) :
    extract_json_from_text ("```json" ++ s ++ "```") = extract_json_from_text s := by
  have hno : ¬ Occurs fence s.toList :=
    not_occurs_of_splitFirst_none fence_ne_nil s.toList h1
  have htl : ("```json" ++ s ++ "```").toList = fenceJson ++ (s.toList ++ fence) := by
    simp [String.toList, fence, fenceJson]
  have hnoJ : ¬ Occurs fenceJson (s.toList ++ fence) := fun hocc =>
    hno (occurs_fence_of_fenceJson_append hocc)
  have hnoJs : ¬ Occurs fenceJson s.toList := fun hocc =>
    hno (occurs_fence_of_fenceJson hocc)
  have hsf1 : splitFirst fenceJson (fenceJson ++ (s.toList ++ fence)) =
      some ([], s.toList ++ fence) := splitFirst_sep_append fenceJson_ne_nil _
  have hsf2 : splitFirst fenceJson (s.toList ++ fence) = none :=
    splitFirst_eq_none hnoJ
  have hsf3 : splitFirst fence (s.toList ++ fence) = some (s.toList, []) :=
    splitFirst_fence_append s.toList hno h2
  have hsf4 : splitFirst fenceJson s.toList = none := splitFirst_eq_none hnoJs
  simp only [extract_json_from_text, pyIn, htl]
  simp only [hsf1, hsf4, Option.isSome_some, Option.isSome_none, if_true,
    if_false, Bool.false_eq_true]
  rw [listSplit_of_some fenceJson_ne_nil hsf1, listSplit_of_none hsf2]
  simp only [List.getD_cons_succ, List.getD_cons_zero]
  rw [listSplit_of_some fence_ne_nil hsf3]
  simp only [List.headD_cons]

/-- C8 (amended): for every text input containing no fence marker
(```` ``` ````) at all, JSON extraction parses exactly the trimmed whole
text, unchanged.  (The original claim only excluded json-fenced blocks;
texts containing bare ```` ``` ```` still get those markers removed, see the
counterexample.) -/
theorem claim_C8 (text : String) (h : splitFirst fence text.toList = none) :
    extract_json_from_text text = json_loads (pyStripStr text) := by
  have hno : ¬ Occurs fence text.toList :=
    not_occurs_of_splitFirst_none fence_ne_nil text.toList h
  have hnoJ : ¬ Occurs fenceJson text.toList := fun hocc =>
    hno (occurs_fence_of_fenceJson hocc)
  have hsf : splitFirst fenceJson text.toList = none := splitFirst_eq_none hnoJ
  simp only [extract_json_from_text, pyIn, hsf, Option.isSome_none,
    Bool.false_eq_true, if_false]
  rw [listReplace_of_none h]
  rfl

/-- C1: a schema value is returned by the orchestrator only if the text
extracted from the inference response was successfully parsed as JSON, and
if JSON parsing fails the orchestrator raises the JSON decode error and
returns no schema. -/
theorem claim_C1 (env : Env) (r : Response) (hr : responseOf env = some r) :
    (isOkResult (extract_schema_from_audio env).result = true →
      (extract_json_from_text (extract_text_from_response r)).isSome = true) ∧
    (extract_json_from_text (extract_text_from_response r) = none →
      (extract_schema_from_audio env).result =
        Except.error PipelineError.jsonDecodeError) := by
  unfold responseOf at hr
  cases hw : wait_for_file_active env.states 180 with
  | none => rw [hw] at hr; simp at hr
  | some k =>
    rw [hw] at hr
    cases ho : (generate_with_retry env.attempt env.jitter 5).outcome with
    | raised e => rw [ho] at hr; simp at hr
    | exhausted => rw [ho] at hr; simp at hr
    | ok r' =>
      rw [ho] at hr
      simp only [Option.some.injEq] at hr
      subst hr
      rw [orch_of_wait hw]
      simp only [afterWait, ho]
      cases hj : extract_json_from_text (extract_text_from_response r') with
      | none =>
        refine ⟨?_, ?_⟩
        · intro hok
          simp [isOkResult] at hok
        · intro _
          rfl
      | some parsed =>
        refine ⟨?_, ?_⟩
        · intro _
          rfl
        · intro hnone
          exact Option.noConfusion hnone

/-- C3: when every attempt raises a transient error (message containing
"503" or "overloaded", case-insensitive), the retrier performs exactly
`max_retries` attempts, the delay taken after attempt `k` lies in
`[2 ^ k, 2 ^ k + 1)` seconds, and the run ends in the `exhausted` outcome
(the `RuntimeError`), a constructor distinct from `raised` re-raising the
underlying transient error. -/
theorem claim_C3 {R : Type} (attempt : Nat → Except String R)
    (jitter : Nat → ℚ) (m kk : Nat)
    (hfail : ∀ j, j < m → ∃ e, attempt j = Except.error e ∧ isTransient e = true)
    (hjit : ∀ j, 0 ≤ jitter j ∧ jitter j < 1) (hkk : kk < m) :
    (generate_with_retry attempt jitter m).outcome = RetryOutcome.exhausted ∧
    (generate_with_retry attempt jitter m).attemptsMade = m ∧
    (generate_with_retry attempt jitter m).delays.length = m ∧
    (generate_with_retry attempt jitter m).delays.getD kk 0 = 2 ^ kk + jitter kk ∧
    2 ^ kk ≤ (generate_with_retry attempt jitter m).delays.getD kk 0 ∧
    (generate_with_retry attempt jitter m).delays.getD kk 0 < 2 ^ kk + 1 := by
  have hrun : generate_with_retry attempt jitter m =
      ⟨.exhausted, m, (List.range m).map (fun i => (2 : ℚ) ^ i + jitter i)⟩ := by
    unfold generate_with_retry
    have hh := retryGo_exhausted attempt jitter m 0 [] (by
      intro j hj
      obtain ⟨e, he, ht⟩ := hfail j hj
      exact ⟨e, by rw [show 0 + j = j by omega]; exact he, ht⟩)
    rw [hh]
    simp
  rw [hrun]
  have hget : ((List.range m).map (fun i => (2 : ℚ) ^ i + jitter i)).getD kk 0
      = 2 ^ kk + jitter kk := by
    rw [List.getD_eq_getElem _ _ (by simpa using hkk)]
    rw [List.getElem_map, List.getElem_range]
  obtain ⟨hj0, hj1⟩ := hjit kk
  refine ⟨rfl, rfl, by simp, hget, ?_, ?_⟩
  · rw [hget]; linarith
  · rw [hget]; linarith

/-- C4: when the first attempt raises an error whose string form contains
neither "503" nor "overloaded" (case-insensitive), the retrier propagates
that error immediately: one attempt total and no delay taken. -/
theorem claim_C4 {R : Type} (attempt : Nat → Except String R)
    (jitter : Nat → ℚ) (m : Nat) (e : String)
    (h0 : attempt 0 = Except.error e) (ht : isTransient e = false)
    (hm : 0 < m) :
    generate_with_retry attempt jitter m = ⟨RetryOutcome.raised e, 1, []⟩ := by
  cases m with
  | zero => omega
  | succ mm =>
    unfold generate_with_retry
    simp only [retryGo, h0, ht, Bool.false_eq_true, if_false]
    rfl

/-- C5: if the polled state never equals ACTIVE before the 180-second
deadline (polling every 2 seconds), the waiter returns the Timeout error
and the orchestrator makes no inference attempt. -/
theorem claim_C5 (env : Env)
    (h : ∀ j, 2 * j < 180 → env.states j ≠ "ACTIVE") :
    wait_for_file_active env.states 180 = none ∧
    (extract_schema_from_audio env).result = Except.error PipelineError.timeout ∧
    (extract_schema_from_audio env).inferenceAttempts = 0 := by
  have hw : wait_for_file_active env.states 180 = none :=
    wait_for_file_active_none h
  refine ⟨hw, ?_, ?_⟩
  · unfold extract_schema_from_audio; rw [hw]
  · unfold extract_schema_from_audio; rw [hw]

/-- C6: the stored cost equals
`(input_tokens * 0.30 + output_tokens * 2.50) / 1_000_000` rounded to six
decimal places; in particular 1,000,000 input tokens alone cost 0.30 USD,
1,000,000 output tokens alone cost 2.50 USD, and 500,000 input with
200,000 output tokens cost 0.65 USD. -/
theorem claim_C6 :
    (∀ i o : Nat, estimated_cost_usd i o =
      (roundHalfEven (((i : ℚ) * (3 / 10) + (o : ℚ) * (5 / 2)) / 1000000 * 10 ^ 6) : ℚ)
        / 10 ^ 6) ∧
    estimated_cost_usd 1000000 0 = 3 / 10 ∧
    estimated_cost_usd 0 1000000 = 5 / 2 ∧
    estimated_cost_usd 500000 200000 = 13 / 20 := by
  refine ⟨fun i o => rfl, ?_, ?_, ?_⟩
  · unfold estimated_cost_usd roundScaled
    rw [show total_cost 1000000 0 * 10 ^ 6 = ((300000 : ℤ) : ℚ) by
      unfold total_cost; norm_num]
    rw [roundHalfEven_intCast]
    norm_num
  · unfold estimated_cost_usd roundScaled
    rw [show total_cost 0 1000000 * 10 ^ 6 = ((2500000 : ℤ) : ℚ) by
      unfold total_cost; norm_num]
    rw [roundHalfEven_intCast]
    norm_num
  · unfold estimated_cost_usd roundScaled
    rw [show total_cost 500000 200000 * 10 ^ 6 = ((650000 : ℤ) : ℚ) by
      unfold total_cost; norm_num]
    rw [roundHalfEven_intCast]
    norm_num

/-- C7: text extraction returns the concatenation, in encountered order,
of the `text` field of every content part of every candidate, skipping
parts without text, stripped of surrounding whitespace; it is total, so an
empty result is not an error. -/
theorem claim_C7 (r : Response) :
    extract_text_from_response r =
      pyStripStr (((r.candidates.flatMap fun c => c.content.parts).filterMap
        fun p => p.text).foldr (· ++ ·) "") := by
  unfold extract_text_from_response
  rw [candsFoldl]
  simp

/-- C9: on a successful run whose response text parses to a JSON object,
the returned schema maps every key other than "metrics" to exactly its
value in the parsed object, and maps "metrics" to the orchestrator's
injected metrics mapping (overwriting any model-supplied entry, since
`dictInsert` replaces an existing key). -/
theorem claim_C9 (env : Env) (resp : Response) (kvs : List (String × Json))
    (k : Nat) (key : String)
    (hw : wait_for_file_active env.states 180 = some k)
    (hr : (generate_with_retry env.attempt env.jitter 5).outcome =
      RetryOutcome.ok resp)
    (hj : extract_json_from_text (extract_text_from_response resp) =
      some (Json.obj kvs))
    (hkey : key ≠ "metrics") :
    (extract_schema_from_audio env).result =
      Except.ok (Json.obj (dictInsert kvs "metrics" (metricsOf env k resp))) ∧
    dictGet (dictInsert kvs "metrics" (metricsOf env k resp)) key =
      dictGet kvs key ∧
    dictGet (dictInsert kvs "metrics" (metricsOf env k resp)) "metrics" =
      some (metricsOf env k resp) := by
  rw [orch_of_wait hw]
  simp only [afterWait, hr, hj]
  exact ⟨trivial, dictGet_insert_ne hkey, dictGet_insert_self _ _ _⟩

/-- C10: there is a response whose cleaned text is valid JSON but not a
JSON object (here the array `[1, 2]`), for which the orchestrator fails
with the `TypeError` raised by `schema["metrics"] = ...` and returns no
schema, even though JSON parsing succeeded. -/
theorem claim_C10 :
    extract_json_from_text (extract_text_from_response respArr) =
      some (Json.arr [Json.intNum 1, Json.intNum 2]) ∧
    (extract_schema_from_audio envArr).result =
      Except.error PipelineError.typeError := by
  refine ⟨rfl, ?_⟩
  rw [orch_of_wait (wait_first_active rfl)]
  rfl

/-- C2 counterexample: `s2bad = [1, \"```\"]` is valid JSON, yet wrapping
it in a ```` ```json ```` fenced block makes extraction fail (`none`) while
the unwrapped text extracts to `some` value, so the two results differ. -/
theorem claim_C2_counterexample :
    (json_loads s2bad).isSome = true ∧
    extract_json_from_text ("```json" ++ s2bad ++ "```") = none ∧
    extract_json_from_text s2bad =
      some (Json.arr [Json.intNum 1, Json.str ""]) ∧
    extract_json_from_text ("```json" ++ s2bad ++ "```") ≠
      extract_json_from_text s2bad := by
  refine ⟨rfl, rfl, rfl, ?_⟩
  intro h
  have ha : extract_json_from_text ("```json" ++ s2bad ++ "```") = none := rfl
  have hb : extract_json_from_text s2bad =
      some (Json.arr [Json.intNum 1, Json.str ""]) := rfl
  rw [ha, hb] at h
  exact Option.noConfusion h

/-- C8 counterexample: `s8bad = [2, \"```\"]` contains no json-fenced
block, yet JSON extraction differs from parsing the trimmed whole text:
the bare fence markers are removed first. -/
theorem claim_C8_counterexample :
    pyIn fenceJson s8bad.toList = false ∧
    extract_json_from_text s8bad =
      some (Json.arr [Json.intNum 2, Json.str ""]) ∧
    json_loads (pyStripStr s8bad) =
      some (Json.arr [Json.intNum 2, Json.str "```"]) ∧
    extract_json_from_text s8bad ≠ json_loads (pyStripStr s8bad) := by
  refine ⟨rfl, rfl, rfl, ?_⟩
  intro h
  have ha : extract_json_from_text s8bad =
      some (Json.arr [Json.intNum 2, Json.str ""]) := rfl
  have hb : json_loads (pyStripStr s8bad) =
      some (Json.arr [Json.intNum 2, Json.str "```"]) := rfl
  rw [ha, hb] at h
  simp at h

/-- Witness for C1 at a concrete environment whose response text is
`"not json"`. -/
theorem claim_C1_witness :
    responseOf envNotJson = some respNotJson ∧
    extract_json_from_text (extract_text_from_response respNotJson) = none ∧
    (extract_schema_from_audio envNotJson).result =
      Except.error PipelineError.jsonDecodeError := by
  have hr : responseOf envNotJson = some respNotJson := by
    unfold responseOf
    rw [wait_first_active rfl]
    rfl
  exact ⟨hr, rfl, (claim_C1 envNotJson respNotJson hr).2 rfl⟩

/-- Witness for the amended C2 at the concrete string `"[5, 6]"`. -/
theorem claim_C2_witness :
    splitFirst fence "[5, 6]".toList = none ∧
    "[5, 6]".toList.getLast? ≠ some backtick ∧
    extract_json_from_text ("```json" ++ "[5, 6]" ++ "```") =
      extract_json_from_text "[5, 6]" :=
  ⟨rfl, by decide, claim_C2 "[5, 6]" rfl (by decide)⟩

/-- Witness for C3: three attempts all failing with `"503"`, zero
jitter. -/
theorem claim_C3_witness :
    (generate_with_retry attempt503 zeroJitter 3).outcome =
      RetryOutcome.exhausted ∧
    (generate_with_retry attempt503 zeroJitter 3).attemptsMade = 3 ∧
    (generate_with_retry attempt503 zeroJitter 3).delays.length = 3 ∧
    (generate_with_retry attempt503 zeroJitter 3).delays.getD 1 0 =
      2 ^ 1 + zeroJitter 1 ∧
    2 ^ 1 ≤ (generate_with_retry attempt503 zeroJitter 3).delays.getD 1 0 ∧
    (generate_with_retry attempt503 zeroJitter 3).delays.getD 1 0 < 2 ^ 1 + 1 :=
  claim_C3 attempt503 zeroJitter 3 1
    (fun j hj => ⟨"503", rfl, rfl⟩)
    (fun j => ⟨le_refl 0, one_pos⟩)
    (by decide)

/-- Witness for C4: first attempt fails with the non-transient message
`"boom"`. -/
theorem claim_C4_witness :
    isTransient "boom" = false ∧
    generate_with_retry attemptBoom zeroJitter 5 =
      ⟨RetryOutcome.raised "boom", 1, []⟩ :=
  ⟨rfl, claim_C4 attemptBoom zeroJitter 5 "boom" rfl rfl (by decide)⟩

/-- Witness for C5: a state sequence stuck in `PROCESSING`. -/
theorem claim_C5_witness :
    wait_for_file_active envPending.states 180 = none ∧
    (extract_schema_from_audio envPending).result =
      Except.error PipelineError.timeout ∧
    (extract_schema_from_audio envPending).inferenceAttempts = 0 :=
  claim_C5 envPending (fun j hj => (by decide : "PROCESSING" ≠ "ACTIVE"))

/-- Witness for the amended C8 at the concrete string `"[7]"`. -/
theorem claim_C8_witness :
    splitFirst fence "[7]".toList = none ∧
    extract_json_from_text "[7]" = json_loads (pyStripStr "[7]") :=
  ⟨rfl, claim_C8 "[7]" rfl⟩

/-- Witness for C9: a fenced JSON object response with usage counters. -/
theorem claim_C9_witness :
    wait_for_file_active envObj.states 180 = some 0 ∧
    (generate_with_retry envObj.attempt envObj.jitter 5).outcome =
      RetryOutcome.ok respObj ∧
    extract_json_from_text (extract_text_from_response respObj) =
      some (Json.obj [("a", Json.intNum 1)]) ∧
    "a" ≠ "metrics" ∧
    (extract_schema_from_audio envObj).result =
      Except.ok (Json.obj
        (dictInsert [("a", Json.intNum 1)] "metrics" (metricsOf envObj 0 respObj))) ∧
    dictGet (dictInsert [("a", Json.intNum 1)] "metrics"
      (metricsOf envObj 0 respObj)) "a" = dictGet [("a", Json.intNum 1)] "a" ∧
    dictGet (dictInsert [("a", Json.intNum 1)] "metrics"
      (metricsOf envObj 0 respObj)) "metrics" =
      some (metricsOf envObj 0 respObj) := by
  have hw : wait_for_file_active envObj.states 180 = some 0 :=
    wait_first_active rfl
  have hc := claim_C9 envObj respObj [("a", Json.intNum 1)] 0 "a" hw rfl rfl
    (by decide)
  exact ⟨hw, rfl, rfl, by decide, hc.1, hc.2.1, hc.2.2⟩
